import Mathlib

/-!
A verification development for the gcovr coverage data model
(`gcovr/coverage.py`): the per-line/per-branch/per-function/per-decision
coverage entities, the per-file and project-wide aggregation into
`CoverageStat` / `DecisionCoverageStat` / `SummarizedStats`, the
percentage contract of `percent_or`, and the uncovered-line range
compression.

Modelling conventions:
- Python `int` is modelled as `ℤ`; `float` results of the percentage
  computation are modelled as `ℚ`, with Python's `round(x, 1)`
  modelled as round-half-to-even at one decimal.
- Python `dict` is modelled as an association list (`List (κ × α)`)
  whose iteration order is insertion order; `dict` lookup is `alookup`.
- A Python `assert` in a constructor is modelled by an `Option`-returning
  smart constructor (`none` = the assertion fires and construction fails).
- Python's `Union[float, _T]` return type of `percent_or` is modelled as
  the sum type `ℚ ⊕ α`.
-/

namespace Gcovr

/-- Lookup in an association list, the model of Python `dict` indexing. -/
def alookup {κ α : Type} [DecidableEq κ] (k : κ) : List (κ × α) → Option α
  | [] => none
  | (k₀, v) :: rest => if k = k₀ then some v else alookup k rest

/-- Model of `BranchCoverage`: one branch's execution count and classification flags. -/
structure BranchCoverage where
  count : ℤ
  fallthrough : Bool
  throw : Bool
deriving DecidableEq, Repr

/-- Model of `BranchCoverage.__init__`: `assert count >= 0`. -/
def BranchCoverage.mk? (count : ℤ) (fallthrough throw : Bool) : Option BranchCoverage :=
  if 0 ≤ count then some ⟨count, fallthrough, throw⟩ else none

/-- Model of `BranchCoverage.is_covered`: `count > 0`. -/
def BranchCoverage.is_covered (b : BranchCoverage) : Bool :=
  decide (0 < b.count)

/-- The closed `DecisionCoverage` variant:
Uncheckable / Conditional / Switch. -/
inductive DecisionCoverage where
  | uncheckable : DecisionCoverage
  | conditional (count_true count_false : ℤ) : DecisionCoverage
  | switch (count : ℤ) : DecisionCoverage
deriving DecidableEq, Repr

/-- Model of `DecisionCoverageConditional.__init__`:
`assert count_true >= 0; assert count_false >= 0`. -/
def DecisionCoverage.conditional? (count_true count_false : ℤ) : Option DecisionCoverage :=
  if 0 ≤ count_true then
    if 0 ≤ count_false then some (.conditional count_true count_false) else none
  else none

/-- Model of `DecisionCoverageSwitch.__init__`: `assert count >= 0`. -/
def DecisionCoverage.switch? (count : ℤ) : Option DecisionCoverage :=
  if 0 ≤ count then some (.switch count) else none

/-- Model of `FunctionCoverage`: one function's call count
(`lineno` defaults to `0` in `__init__`). -/
structure FunctionCoverage where
  name : String
  count : ℤ
  lineno : ℤ
deriving DecidableEq, Repr

/-- Model of `FunctionCoverage.__init__`: `assert call_count >= 0`; sets `lineno = 0`. -/
def FunctionCoverage.mk? (name : String) (call_count : ℤ) : Option FunctionCoverage :=
  if 0 ≤ call_count then some ⟨name, call_count, 0⟩ else none

/-- Model of `LineCoverage`: one source line's execution count, flags, owned
branches (keyed by branch id) and optional decision. -/
structure LineCoverage where
  lineno : ℤ
  count : ℤ
  noncode : Bool
  excluded : Bool
  branches : List (ℤ × BranchCoverage)
  decision : Option DecisionCoverage
deriving DecidableEq, Repr

/-- Model of `LineCoverage.__init__`: `assert lineno > 0; assert count >= 0`;
starts with no branches and no decision. -/
def LineCoverage.mk? (lineno count : ℤ) (noncode excluded : Bool) : Option LineCoverage :=
  if 0 < lineno then
    if 0 ≤ count then some ⟨lineno, count, noncode, excluded, [], none⟩ else none
  else none

/-- Model of `LineCoverage.is_excluded`. -/
def LineCoverage.is_excluded (lc : LineCoverage) : Bool :=
  lc.excluded

/-- Model of `LineCoverage.is_covered`: `False` when `noncode`, else `count > 0`. -/
def LineCoverage.is_covered (lc : LineCoverage) : Bool :=
  if lc.noncode then false else decide (0 < lc.count)

/-- Model of `LineCoverage.is_uncovered`: `False` when `noncode`, else `count == 0`. -/
def LineCoverage.is_uncovered (lc : LineCoverage) : Bool :=
  if lc.noncode then false else decide (lc.count = 0)

/-- Model of `LineCoverage.branch(branch_id)`: get-or-create; a missing id inserts
`BranchCoverage(0)`. Returns the record and the (possibly updated) line. -/
def LineCoverage.branch (lc : LineCoverage) (branch_id : ℤ) :
    BranchCoverage × LineCoverage :=
  match alookup branch_id lc.branches with
  | some b => (b, lc)
  | none =>
    let branch_cov : BranchCoverage := ⟨0, false, false⟩
    (branch_cov, { lc with branches := lc.branches ++ [(branch_id, branch_cov)] })

/-- Model of `CoverageStat`: the atomic covered/total statistic. -/
structure CoverageStat where
  covered : ℤ
  total : ℤ
deriving DecidableEq, Repr

/-- Model of `CoverageStat.new_empty()`. -/
def CoverageStat.new_empty : CoverageStat := ⟨0, 0⟩

/-- Model of `CoverageStat.__iadd__`: componentwise sum. -/
def CoverageStat.iadd (a b : CoverageStat) : CoverageStat :=
  ⟨a.covered + b.covered, a.total + b.total⟩

/-- Model of `DecisionCoverageStat`: covered/uncheckable/total triple. -/
structure DecisionCoverageStat where
  covered : ℤ
  uncheckable : ℤ
  total : ℤ
deriving DecidableEq, Repr

/-- Model of `DecisionCoverageStat.new_empty()`. -/
def DecisionCoverageStat.new_empty : DecisionCoverageStat := ⟨0, 0, 0⟩

/-- Model of `DecisionCoverageStat.__iadd__`: componentwise sum. -/
def DecisionCoverageStat.iadd (a b : DecisionCoverageStat) : DecisionCoverageStat :=
  ⟨a.covered + b.covered, a.uncheckable + b.uncheckable, a.total + b.total⟩

/-- Model of `DecisionCoverageStat.to_coverage_stat`. -/
def DecisionCoverageStat.to_coverage_stat (d : DecisionCoverageStat) : CoverageStat :=
  ⟨d.covered, d.total⟩

/-- Model of `LineCoverage.branch_coverage()`: `total = len(branches)`,
`covered` counts branches with `is_covered`. -/
def LineCoverage.branch_coverage (lc : LineCoverage) : CoverageStat :=
  ⟨lc.branches.foldl (fun covered p => if p.2.is_covered then covered + 1 else covered) 0,
   (lc.branches.length : ℤ)⟩

/-- Model of `LineCoverage.decision_coverage()`: case split on the optional decision.
The `RuntimeError` branch of the source is unreachable here because
`DecisionCoverage` is a closed inductive with exactly the three variants. -/
def LineCoverage.decision_coverage (lc : LineCoverage) : DecisionCoverageStat :=
  match lc.decision with
  | none => ⟨0, 0, 0⟩
  | some .uncheckable => ⟨0, 1, 2⟩
  | some (.conditional count_true count_false) =>
    ⟨(if 0 < count_true then 1 else 0) + (if 0 < count_false then 1 else 0), 0, 2⟩
  | some (.switch count) => ⟨if 0 < count then 1 else 0, 0, 1⟩

/-- Model of `FileCoverage`: one file's lines (keyed by line number) and
functions (keyed by name). -/
structure FileCoverage where
  filename : String
  functions : List (String × FunctionCoverage)
  lines : List (ℤ × LineCoverage)
deriving DecidableEq, Repr

/-- Model of `FileCoverage.line(lineno, **defaults)`: get-or-create; the create path
runs `LineCoverage.__init__` whose assertions may fail. -/
def FileCoverage.line (fc : FileCoverage) (lineno count : ℤ) (noncode excluded : Bool) :
    Option (LineCoverage × FileCoverage) :=
  match alookup lineno fc.lines with
  | some line_cov => some (line_cov, fc)
  | none =>
    match LineCoverage.mk? lineno count noncode excluded with
    | some line_cov => some (line_cov, { fc with lines := fc.lines ++ [(lineno, line_cov)] })
    | none => none

/-- Model of `FileCoverage.function(function_name)`: get-or-create with
`FunctionCoverage(function_name)` (call count `0`, which always passes
the assertion). -/
def FileCoverage.function (fc : FileCoverage) (function_name : String) :
    FunctionCoverage × FileCoverage :=
  match alookup function_name fc.functions with
  | some function_cov => (function_cov, fc)
  | none =>
    let function_cov : FunctionCoverage := ⟨function_name, 0, 0⟩
    (function_cov, { fc with functions := fc.functions ++ [(function_name, function_cov)] })

/-- Model of `FileCoverage.function_coverage()`: total functions vs. functions
with `count > 0`. -/
def FileCoverage.function_coverage (fc : FileCoverage) : CoverageStat :=
  ⟨fc.functions.foldl (fun covered p => if 0 < p.2.count then covered + 1 else covered) 0,
   (fc.functions.length : ℤ)⟩

/-- Model of `FileCoverage.line_coverage()`: one pass over the lines, counting
covered-or-uncovered lines into `total` and covered lines into `covered`. -/
def FileCoverage.line_coverage (fc : FileCoverage) : CoverageStat :=
  fc.lines.foldl
    (fun stat p =>
      let t := if p.2.is_covered || p.2.is_uncovered then stat.total + 1 else stat.total
      let c := if p.2.is_covered then stat.covered + 1 else stat.covered
      ⟨c, t⟩)
    ⟨0, 0⟩

/-- Model of `FileCoverage.branch_coverage()`: additive sum of every line's
branch stat (all lines, noncode included). -/
def FileCoverage.branch_coverage (fc : FileCoverage) : CoverageStat :=
  fc.lines.foldl (fun stat p => stat.iadd p.2.branch_coverage) CoverageStat.new_empty

/-- Model of `FileCoverage.decision_coverage()`: additive sum of every line's
decision stat (all lines, noncode included). -/
def FileCoverage.decision_coverage (fc : FileCoverage) : DecisionCoverageStat :=
  fc.lines.foldl (fun stat p => stat.iadd p.2.decision_coverage) DecisionCoverageStat.new_empty

/-- Insertion step of the sort used to model Python `sorted`. -/
def insSortAux (x : ℤ) : List ℤ → List ℤ
  | [] => [x]
  | y :: ys => if x ≤ y then x :: y :: ys else y :: insSortAux x ys

/-- Insertion sort, the model of Python `sorted` on line numbers. -/
def insSort : List ℤ → List ℤ
  | [] => []
  | x :: xs => insSortAux x (insSort xs)

/-- Model of `_format_range`: `str(first)` when the range is a single line,
`"first-last"` otherwise. -/
def formatRange (first last : ℤ) : String :=
  if first = last then toString first else toString first ++ "-" ++ toString last

/-- Loop body of `_find_consecutive_ranges` once the first item has been
seen: `first`/`last` are the open range, the list is the remaining input. -/
def findRangesGo (first last : ℤ) : List ℤ → List (ℤ × ℤ)
  | [] => [(first, last)]
  | item :: rest =>
    if item = last + 1 then findRangesGo first item rest
    else (first, last) :: findRangesGo item item rest

/-- Model of `_find_consecutive_ranges`: compress a number sequence into
(first, last) blocks of consecutive integers. -/
def findConsecutiveRanges : List ℤ → List (ℤ × ℤ)
  | [] => []
  | x :: xs => findRangesGo x x xs

/-- The sorted uncovered line numbers of a file
(`sorted(lineno for lineno, line in lines.items() if line.is_uncovered)`). -/
def FileCoverage.sortedUncoveredLines (fc : FileCoverage) : List ℤ :=
  insSort ((fc.lines.filter (fun p => p.2.is_uncovered)).map Prod.fst)

/-- Model of `FileCoverage.uncovered_lines_str()`. -/
def FileCoverage.uncovered_lines_str (fc : FileCoverage) : String :=
  let uncovered_lines := fc.sortedUncoveredLines
  if uncovered_lines.isEmpty then ""
  else
    String.intercalate ","
      ((findConsecutiveRanges uncovered_lines).map (fun p => formatRange p.1 p.2))

/-- Model of `FileCoverage.uncovered_branches_str()`: flat comma-separated sorted
list of lines with at least one uncovered branch; not range-compressed. -/
def FileCoverage.uncovered_branches_str (fc : FileCoverage) : String :=
  let uncovered_lines :=
    insSort ((fc.lines.filter
      (fun p => !(p.2.branches.all (fun q => q.2.is_covered)))).map Prod.fst)
  String.intercalate "," (uncovered_lines.map toString)

/-- Model of `SummarizedStats`: the four aggregates. -/
structure SummarizedStats where
  line : CoverageStat
  branch : CoverageStat
  function : CoverageStat
  decision : DecisionCoverageStat
deriving DecidableEq, Repr

/-- Model of `SummarizedStats.new_empty()`. -/
def SummarizedStats.new_empty : SummarizedStats :=
  ⟨CoverageStat.new_empty, CoverageStat.new_empty, CoverageStat.new_empty,
   DecisionCoverageStat.new_empty⟩

/-- Model of `SummarizedStats.__iadd__`: componentwise additive merge. -/
def SummarizedStats.iadd (a b : SummarizedStats) : SummarizedStats :=
  ⟨a.line.iadd b.line, a.branch.iadd b.branch, a.function.iadd b.function,
   a.decision.iadd b.decision⟩

/-- Model of `SummarizedStats.from_file(filecov)`. -/
def SummarizedStats.from_file (filecov : FileCoverage) : SummarizedStats :=
  ⟨filecov.line_coverage, filecov.branch_coverage, filecov.function_coverage,
   filecov.decision_coverage⟩

/-- Model of `CovData`: the project-wide mapping filename → FileCoverage. -/
abbrev CovData : Type := List (String × FileCoverage)

/-- Model of `SummarizedStats.from_covdata(covdata)`: start from all-zero and
`+=` the per-file stats in mapping iteration order. -/
def SummarizedStats.from_covdata (covdata : CovData) : SummarizedStats :=
  List.foldl (fun stats p => stats.iadd (SummarizedStats.from_file p.2))
    SummarizedStats.new_empty covdata

/-- Round half to even, the model of Python `round` to an integer. -/
def roundHalfEven (q : ℚ) : ℤ :=
  let f := q.floor
  let r := q - (f : ℚ)
  if r < 1 / 2 then f
  else if 1 / 2 < r then f + 1
  else if f % 2 = 0 then f else f + 1

/-- Python `round(x, 1)`: round half to even at one decimal. -/
def pyRound1 (q : ℚ) : ℚ :=
  ((roundHalfEven (q * 10) : ℤ) : ℚ) / 10

/-- Python's builtin `min` on two values (returns the first on ties). -/
def pymin (a b : ℚ) : ℚ :=
  if a ≤ b then a else b

/-- Model of `CoverageStat.percent_or(default)`: the percentage contract. The
`Union[float, _T]` result is `Sum.inl` for the float branch and
`Sum.inr` for the returned default. -/
def CoverageStat.percent_or {α : Type} (s : CoverageStat) (default : α) : ℚ ⊕ α :=
  if s.total = 0 then Sum.inr default
  else if s.covered = s.total then Sum.inl 100
  else Sum.inl (pymin (999 / 10) (pyRound1 ((s.covered : ℚ) / (s.total : ℚ) * (100 : ℚ))))

/-- Model of `CoverageStat.percent`: `percent_or(None)`, with `Union[float, None]`
modelled as `Option ℚ`. -/
def CoverageStat.percent (s : CoverageStat) : Option ℚ :=
  match s.percent_or PUnit.unit with
  | Sum.inl q => some q
  | Sum.inr _ => none

/-- Model of `DecisionCoverageStat.percent_or`: via `to_coverage_stat`. -/
def DecisionCoverageStat.percent_or {α : Type} (d : DecisionCoverageStat) (default : α) : ℚ ⊕ α :=
  d.to_coverage_stat.percent_or default

/-- Model of `DecisionCoverageStat.percent`. -/
def DecisionCoverageStat.percent (d : DecisionCoverageStat) : Option ℚ :=
  d.to_coverage_stat.percent


/-- Well-formedness of a coverage statistic: non-negative fields with
`covered ≤ total`. -/
def statOk (s : CoverageStat) : Prop :=
  0 ≤ s.covered ∧ 0 ≤ s.total ∧ s.covered ≤ s.total

/-- Specification helper: the integers from `first` through `last`. -/
def rangeList (first last : ℤ) : List ℤ :=
  (List.range (last + 1 - first).toNat).map (fun i : ℕ => first + (i : ℤ))

/-- Specification helper: expand compressed ranges back into lines. -/
def decompressRanges (rs : List (ℤ × ℤ)) : List ℤ :=
  (rs.map (fun p => rangeList p.1 p.2)).join

/-- Specification helper: forget a line's excluded flag. -/
def LineCoverage.clearExcluded (lc : LineCoverage) : LineCoverage :=
  { lc with excluded := false }

/-- Specification helper: forget all excluded flags of a file; two files
differ only in excluded flags exactly when their cleared forms agree. -/
def FileCoverage.clearExcluded (fc : FileCoverage) : FileCoverage :=
  { fc with lines := fc.lines.map (fun p => (p.1, p.2.clearExcluded)) }

/-! Helper lemmas. -/

/-- A `pymin` is bounded by its first argument. -/
lemma pymin_le_left (a b : ℚ) : pymin a b ≤ a := by
  unfold pymin
  split
  · exact le_refl a
  · exact le_of_not_le (by assumption)

/-- C1: for every `CoverageStat(covered, total)` with `covered ≤ total` and
every default value `d`, `percent_or(d)` satisfies the three-case contract:
`total == 0` returns `d`; `covered == total` (with `total ≠ 0`) returns
exactly `100.0`; otherwise it returns `round(covered/total * 100, 1)`
clamped to a maximum of `99.9`, so a stat with `covered < total` never
yields `100.0`; and `percent` agrees with `percent_or` on the float branch. -/
theorem C1_percent_or_contract {α : Type} (covered total : ℤ) (d : α)
    (hct : covered ≤ total) :
    ((CoverageStat.mk covered total).percent_or d = Sum.inr d ↔ total = 0) ∧
    (total ≠ 0 → covered = total →
      (CoverageStat.mk covered total).percent_or d = Sum.inl 100) ∧
    (total ≠ 0 → covered ≠ total →
      (CoverageStat.mk covered total).percent_or d =
        Sum.inl (pymin (999 / 10) (pyRound1 ((covered : ℚ) / (total : ℚ) * 100))) ∧
      ∀ q : ℚ, (CoverageStat.mk covered total).percent_or d = Sum.inl q → q < 100) ∧
    (∀ q : ℚ, (CoverageStat.mk covered total).percent = some q ↔
      (CoverageStat.mk covered total).percent_or d = Sum.inl q) := by
  refine ⟨?_, ?_, ?_, ?_⟩
  · constructor
    · intro h
      by_contra h0
      by_cases heq : covered = total
      · simp [CoverageStat.percent_or, h0, heq] at h
      · simp [CoverageStat.percent_or, h0, heq] at h
    · intro h0
      simp [CoverageStat.percent_or, h0]
  · intro h0 heq
    simp [CoverageStat.percent_or, h0, heq]
  · intro h0 heq
    refine ⟨by simp [CoverageStat.percent_or, h0, heq], ?_⟩
    intro q hq
    simp only [CoverageStat.percent_or, h0, heq, if_false, if_neg] at hq
    have hinj : pymin (999 / 10) (pyRound1 ((covered : ℚ) / (total : ℚ) * 100)) = q := by
      exact Sum.inl.injEq _ _ |>.mp hq
    calc q = pymin (999 / 10) (pyRound1 ((covered : ℚ) / (total : ℚ) * 100)) := hinj.symm
      _ ≤ 999 / 10 := pymin_le_left _ _
      _ < 100 := by norm_num
  · intro q
    by_cases h0 : total = 0
    · simp [CoverageStat.percent, CoverageStat.percent_or, h0]
    · by_cases heq : covered = total
      · simp [CoverageStat.percent, CoverageStat.percent_or, h0, heq]
      · simp [CoverageStat.percent, CoverageStat.percent_or, h0, heq]

/-- C1 witness: `9999/10000` takes the clamped branch and evaluates to
`99.9`; `10000/10000` gives exactly `100.0`; `0/0` returns the default. -/
theorem C1_percent_or_contract_witness :
    (CoverageStat.mk 9999 10000).percent_or "default" =
      Sum.inl (pymin (999 / 10) (pyRound1 ((9999 : ℚ) / (10000 : ℚ) * 100))) ∧
    pymin (999 / 10) (pyRound1 ((9999 : ℚ) / (10000 : ℚ) * 100)) = 999 / 10 ∧
    (CoverageStat.mk 10000 10000).percent_or "default" = Sum.inl 100 ∧
    (CoverageStat.mk 0 0).percent_or "default" = Sum.inr "default" := by
  refine ⟨((C1_percent_or_contract 9999 10000 "default" (by decide)).2.2.1
      (by decide) (by decide)).1, ?_,
    (C1_percent_or_contract 10000 10000 "default" (by decide)).2.1 (by decide) rfl,
    (C1_percent_or_contract 0 0 "default" (by decide)).1.mpr rfl⟩
  norm_num [pymin, pyRound1, roundHalfEven, Rat.floor_def']

/-- C3: `decision_coverage()` returns the stat fixed by the decision
variant: none gives `(0,0,0)`, Uncheckable gives `(0,1,2)`, Conditional
gives `total=2` with `covered` the number of nonzero counts, Switch gives
`total=1` with `covered=1` iff the count is positive. -/
theorem C3_decision_coverage_cases (lc : LineCoverage) :
    (lc.decision = none → lc.decision_coverage = ⟨0, 0, 0⟩) ∧
    (lc.decision = some .uncheckable → lc.decision_coverage = ⟨0, 1, 2⟩) ∧
    (∀ count_true count_false : ℤ, 0 ≤ count_true → 0 ≤ count_false →
      lc.decision = some (.conditional count_true count_false) →
      lc.decision_coverage =
        ⟨(if count_true ≠ 0 then (1 : ℤ) else 0) +
          (if count_false ≠ 0 then (1 : ℤ) else 0), 0, 2⟩) ∧
    (∀ count : ℤ, lc.decision = some (.switch count) →
      lc.decision_coverage = ⟨if 0 < count then 1 else 0, 0, 1⟩) := by
  refine ⟨?_, ?_, ?_, ?_⟩
  · intro h
    simp [LineCoverage.decision_coverage, h]
  · intro h
    simp [LineCoverage.decision_coverage, h]
  · intro count_true count_false ht hf h
    simp only [LineCoverage.decision_coverage, h]
    simp only [DecisionCoverageStat.mk.injEq, and_true]
    split_ifs <;> omega
  · intro count h
    simp [LineCoverage.decision_coverage, h]

/-- C3 witness: the four variants on concrete lines. -/
theorem C3_decision_coverage_cases_witness :
    (LineCoverage.mk 1 1 false false [] (some (.conditional 3 0))).decision_coverage
      = ⟨1, 0, 2⟩ ∧
    (LineCoverage.mk 1 1 false false [] (some .uncheckable)).decision_coverage
      = ⟨0, 1, 2⟩ ∧
    (LineCoverage.mk 1 1 false false [] (some (.switch 0))).decision_coverage
      = ⟨0, 0, 1⟩ ∧
    (LineCoverage.mk 1 1 false false [] none).decision_coverage = ⟨0, 0, 0⟩ := by
  refine ⟨?_, ?_, ?_, ?_⟩
  · have h := (C3_decision_coverage_cases
      (LineCoverage.mk 1 1 false false [] (some (.conditional 3 0)))).2.2.1
      3 0 (by decide) (by decide) rfl
    rw [h]
    decide
  · exact (C3_decision_coverage_cases
      (LineCoverage.mk 1 1 false false [] (some .uncheckable))).2.1 rfl
  · have h := (C3_decision_coverage_cases
      (LineCoverage.mk 1 1 false false [] (some (.switch 0)))).2.2.2 0 rfl
    rw [h]
    decide
  · exact (C3_decision_coverage_cases
      (LineCoverage.mk 1 1 false false [] none)).1 rfl

/-- C7: construction with a negative count fails (`none`), succeeds exactly
on non-negative counts (for lines also `lineno > 0`), and on success stores
the given counts unchanged (no silent clamping). -/
theorem C7_negative_count_construction_fails :
    (∀ (c : ℤ) (fa th : Bool), (BranchCoverage.mk? c fa th).isSome ↔ 0 ≤ c) ∧
    (∀ ct cf : ℤ, (DecisionCoverage.conditional? ct cf).isSome ↔ 0 ≤ ct ∧ 0 ≤ cf) ∧
    (∀ c : ℤ, (DecisionCoverage.switch? c).isSome ↔ 0 ≤ c) ∧
    (∀ (n : String) (cc : ℤ), (FunctionCoverage.mk? n cc).isSome ↔ 0 ≤ cc) ∧
    (∀ (ln c : ℤ) (nc ex : Bool),
      (LineCoverage.mk? ln c nc ex).isSome ↔ 0 < ln ∧ 0 ≤ c) ∧
    (∀ (c : ℤ) (fa th : Bool) (b : BranchCoverage),
      BranchCoverage.mk? c fa th = some b → b.count = c) ∧
    (∀ (ct cf : ℤ) (dc : DecisionCoverage),
      DecisionCoverage.conditional? ct cf = some dc → dc = .conditional ct cf) ∧
    (∀ (c : ℤ) (dc : DecisionCoverage),
      DecisionCoverage.switch? c = some dc → dc = .switch c) ∧
    (∀ (n : String) (cc : ℤ) (f : FunctionCoverage),
      FunctionCoverage.mk? n cc = some f → f.count = cc) ∧
    (∀ (ln c : ℤ) (nc ex : Bool) (lc : LineCoverage),
      LineCoverage.mk? ln c nc ex = some lc → lc.lineno = ln ∧ lc.count = c) := by
  refine ⟨?_, ?_, ?_, ?_, ?_, ?_, ?_, ?_, ?_, ?_⟩
  · intro c fa th
    by_cases h : 0 ≤ c <;> simp [BranchCoverage.mk?, h]
  · intro ct cf
    by_cases h1 : 0 ≤ ct <;> by_cases h2 : 0 ≤ cf <;>
      simp [DecisionCoverage.conditional?, h1, h2]
  · intro c
    by_cases h : 0 ≤ c <;> simp [DecisionCoverage.switch?, h]
  · intro n cc
    by_cases h : 0 ≤ cc <;> simp [FunctionCoverage.mk?, h]
  · intro ln c nc ex
    by_cases h1 : 0 < ln <;> by_cases h2 : 0 ≤ c <;> simp [LineCoverage.mk?, h1, h2]
  · intro c fa th b h
    unfold BranchCoverage.mk? at h
    split_ifs at h
    cases h
    rfl
  · intro ct cf dc h
    unfold DecisionCoverage.conditional? at h
    split_ifs at h
    cases h
    rfl
  · intro c dc h
    unfold DecisionCoverage.switch? at h
    split_ifs at h
    cases h
    rfl
  · intro n cc f h
    unfold FunctionCoverage.mk? at h
    split_ifs at h
    cases h
    rfl
  · intro ln c nc ex lc h
    unfold LineCoverage.mk? at h
    split_ifs at h
    cases h
    exact ⟨rfl, rfl⟩

/-- C7 witness: concrete rejections and acceptances. -/
theorem C7_negative_count_construction_fails_witness :
    BranchCoverage.mk? (-1) false false = none ∧
    LineCoverage.mk? 5 (-2) false false = none ∧
    LineCoverage.mk? 0 0 false false = none ∧
    (DecisionCoverage.conditional? 2 3).isSome = true ∧
    (FunctionCoverage.mk? "f" 0).isSome = true := by
  refine ⟨?_, ?_, ?_, ?_, ?_⟩
  · have h := (C7_negative_count_construction_fails).1 (-1) false false
    cases hm : BranchCoverage.mk? (-1) false false with
    | none => rfl
    | some b =>
      have : (0 : ℤ) ≤ -1 := h.mp (by rw [hm]; rfl)
      omega
  · have h := (C7_negative_count_construction_fails).2.2.2.2.1 5 (-2) false false
    cases hm : LineCoverage.mk? 5 (-2) false false with
    | none => rfl
    | some lc =>
      have : (0 : ℤ) < 5 ∧ (0 : ℤ) ≤ -2 := h.mp (by rw [hm]; rfl)
      omega
  · have h := (C7_negative_count_construction_fails).2.2.2.2.1 0 0 false false
    cases hm : LineCoverage.mk? 0 0 false false with
    | none => rfl
    | some lc =>
      have : (0 : ℤ) < 0 ∧ (0 : ℤ) ≤ 0 := h.mp (by rw [hm]; rfl)
      omega
  · exact ((C7_negative_count_construction_fails).2.1 2 3).mpr (by constructor <;> decide)
      |> Option.isSome_iff_exists.mp |> fun ⟨x, hx⟩ => by rw [hx]; rfl
  · exact ((C7_negative_count_construction_fails).2.2.2.1 "f" 0).mpr (by decide)
      |> Option.isSome_iff_exists.mp |> fun ⟨x, hx⟩ => by rw [hx]; rfl

/-- Lookup scans the left part of an appended list first. -/
lemma alookup_append {κ α : Type} [DecidableEq κ] (k : κ) (l₁ l₂ : List (κ × α))
    (h : alookup k l₁ = none) : alookup k (l₁ ++ l₂) = alookup k l₂ := by
  induction l₁ with
  | nil => rfl
  | cons p rest ih =>
    by_cases hk : k = p.1
    · rw [show p = (p.1, p.2) from rfl] at h
      simp [alookup, hk] at h
    · rw [show p = (p.1, p.2) from rfl] at h ⊢
      simp only [List.cons_append, alookup, if_neg hk] at h ⊢
      exact ih h

/-- Lookup of the key of a singleton. -/
lemma alookup_singleton {κ α : Type} [DecidableEq κ] (k : κ) (v : α) :
    alookup k [(k, v)] = some v := by
  simp [alookup]

/-- C8: the get-or-create accessors `LineCoverage.branch`,
`FileCoverage.line` and `FileCoverage.function` are idempotent: a present
key returns the existing record with the container unchanged; an absent
key inserts the default record; and a second call returns the same record
as the first and leaves the container equal. -/
theorem C8_get_or_create_idempotent :
    (∀ (lc : LineCoverage) (bid : ℤ) (b : BranchCoverage),
      alookup bid lc.branches = some b → lc.branch bid = (b, lc)) ∧
    (∀ (lc : LineCoverage) (bid : ℤ),
      alookup bid lc.branches = none →
        lc.branch bid = (⟨0, false, false⟩,
          { lc with branches := lc.branches ++ [(bid, ⟨0, false, false⟩)] })) ∧
    (∀ (lc : LineCoverage) (bid : ℤ),
      ((lc.branch bid).2).branch bid = lc.branch bid) ∧
    (∀ (fc : FileCoverage) (n : String) (f : FunctionCoverage),
      alookup n fc.functions = some f → fc.function n = (f, fc)) ∧
    (∀ (fc : FileCoverage) (n : String),
      ((fc.function n).2).function n = fc.function n) ∧
    (∀ (fc : FileCoverage) (ln cnt : ℤ) (nc ex : Bool) (lc : LineCoverage),
      alookup ln fc.lines = some lc → fc.line ln cnt nc ex = some (lc, fc)) ∧
    (∀ (fc fc₂ : FileCoverage) (ln cnt cnt₂ : ℤ) (nc ex nc₂ ex₂ : Bool)
      (lc : LineCoverage),
      fc.line ln cnt nc ex = some (lc, fc₂) →
        fc₂.line ln cnt₂ nc₂ ex₂ = some (lc, fc₂)) := by
  refine ⟨?_, ?_, ?_, ?_, ?_, ?_, ?_⟩
  · intro lc bid b h
    simp [LineCoverage.branch, h]
  · intro lc bid h
    simp [LineCoverage.branch, h]
  · intro lc bid
    cases halo : alookup bid lc.branches with
    | some b => simp [LineCoverage.branch, halo]
    | none =>
      have h₂ : alookup bid (lc.branches ++ [(bid, (⟨0, false, false⟩ : BranchCoverage))])
          = some ⟨0, false, false⟩ := by
        rw [alookup_append _ _ _ halo, alookup_singleton]
      simp [LineCoverage.branch, halo, h₂]
  · intro fc n f h
    simp [FileCoverage.function, h]
  · intro fc n
    cases halo : alookup n fc.functions with
    | some f => simp [FileCoverage.function, halo]
    | none =>
      have h₂ : alookup n (fc.functions ++ [(n, (⟨n, 0, 0⟩ : FunctionCoverage))])
          = some ⟨n, 0, 0⟩ := by
        rw [alookup_append _ _ _ halo, alookup_singleton]
      simp [FileCoverage.function, halo, h₂]
  · intro fc ln cnt nc ex lc h
    simp [FileCoverage.line, h]
  · intro fc fc₂ ln cnt cnt₂ nc ex nc₂ ex₂ lc h
    unfold FileCoverage.line at h
    cases halo : alookup ln fc.lines with
    | some lc₀ =>
      rw [halo] at h
      simp only [Option.some.injEq, Prod.mk.injEq] at h
      obtain ⟨h1, h2⟩ := h
      subst h1
      subst h2
      simp [FileCoverage.line, halo]
    | none =>
      rw [halo] at h
      cases hmk : LineCoverage.mk? ln cnt nc ex with
      | none => rw [hmk] at h; cases h
      | some lc₀ =>
        rw [hmk] at h
        simp only [Option.some.injEq, Prod.mk.injEq] at h
        obtain ⟨h1, h2⟩ := h
        subst h2
        subst h1
        have h₂ : alookup ln (fc.lines ++ [(ln, lc₀)]) = some lc₀ := by
          rw [alookup_append _ _ _ halo, alookup_singleton]
        simp [FileCoverage.line, h₂]

/-- C8 witness: get-or-create on concrete containers. -/
theorem C8_get_or_create_idempotent_witness :
    (LineCoverage.mk 1 0 false false [] none).branch 7
      = (⟨0, false, false⟩, LineCoverage.mk 1 0 false false [(7, ⟨0, false, false⟩)] none) ∧
    (((LineCoverage.mk 1 0 false false [] none).branch 7).2).branch 7
      = (LineCoverage.mk 1 0 false false [] none).branch 7 ∧
    ((FileCoverage.mk "f" [] []).function "g").2.function "g"
      = (FileCoverage.mk "f" [] []).function "g" ∧
    (FileCoverage.mk "f" [] [(3, ⟨3, 0, false, false, [], none⟩)]).line 3 9 true true
      = some (⟨3, 0, false, false, [], none⟩,
              FileCoverage.mk "f" [] [(3, ⟨3, 0, false, false, [], none⟩)]) := by
  refine ⟨?_, C8_get_or_create_idempotent.2.2.1 _ 7,
    C8_get_or_create_idempotent.2.2.2.2.1 _ "g", ?_⟩
  · exact C8_get_or_create_idempotent.2.1 (LineCoverage.mk 1 0 false false [] none) 7 rfl
  · exact C8_get_or_create_idempotent.2.2.2.2.2.2 (FileCoverage.mk "f" [] []) _
      3 0 9 false false true true _ rfl

/-- Associativity of the `CoverageStat` merge. -/
lemma covStat_iadd_assoc (a b c : CoverageStat) :
    (a.iadd b).iadd c = a.iadd (b.iadd c) := by
  simp only [CoverageStat.iadd, CoverageStat.mk.injEq]
  omega

/-- Commutativity of the `CoverageStat` merge. -/
lemma covStat_iadd_comm (a b : CoverageStat) : a.iadd b = b.iadd a := by
  simp only [CoverageStat.iadd, CoverageStat.mk.injEq]
  omega

/-- Associativity of the `DecisionCoverageStat` merge. -/
lemma DecisioncovStat_iadd_assoc (a b c : DecisionCoverageStat) :
    (a.iadd b).iadd c = a.iadd (b.iadd c) := by
  simp only [DecisionCoverageStat.iadd, DecisionCoverageStat.mk.injEq]
  omega

/-- Commutativity of the `DecisionCoverageStat` merge. -/
lemma DecisioncovStat_iadd_comm (a b : DecisionCoverageStat) :
    a.iadd b = b.iadd a := by
  simp only [DecisionCoverageStat.iadd, DecisionCoverageStat.mk.injEq]
  omega

/-- Associativity of the `SummarizedStats` merge. -/
lemma summary_iadd_assoc (a b c : SummarizedStats) :
    (a.iadd b).iadd c = a.iadd (b.iadd c) := by
  simp only [SummarizedStats.iadd, SummarizedStats.mk.injEq]
  exact ⟨covStat_iadd_assoc _ _ _, covStat_iadd_assoc _ _ _,
    covStat_iadd_assoc _ _ _, DecisioncovStat_iadd_assoc _ _ _⟩

/-- Commutativity of the `SummarizedStats` merge. -/
lemma summary_iadd_comm (a b : SummarizedStats) : a.iadd b = b.iadd a := by
  simp only [SummarizedStats.iadd, SummarizedStats.mk.injEq]
  exact ⟨covStat_iadd_comm _ _, covStat_iadd_comm _ _,
    covStat_iadd_comm _ _, DecisioncovStat_iadd_comm _ _⟩

/-- The all-zero `SummarizedStats` is a left identity for the merge. -/
lemma summary_iadd_empty_left (a : SummarizedStats) :
    SummarizedStats.new_empty.iadd a = a := by
  cases a with
  | mk l b f d =>
    cases l
    cases b
    cases f
    cases d
    simp [SummarizedStats.iadd, SummarizedStats.new_empty, CoverageStat.iadd,
      DecisionCoverageStat.iadd, CoverageStat.new_empty, DecisionCoverageStat.new_empty]

/-- The all-zero `SummarizedStats` is a right identity for the merge. -/
lemma summary_iadd_empty_right (a : SummarizedStats) :
    a.iadd SummarizedStats.new_empty = a := by
  rw [summary_iadd_comm]
  exact summary_iadd_empty_left a

/-- Folding the per-file merge from any accumulator factors through the
fold from the empty accumulator. -/
lemma from_covdata_foldl_init (l : CovData) (a : SummarizedStats) :
    List.foldl (fun stats p => stats.iadd (SummarizedStats.from_file p.2)) a l
      = a.iadd (SummarizedStats.from_covdata l) := by
  induction l generalizing a with
  | nil => simp [SummarizedStats.from_covdata, summary_iadd_empty_right]
  | cons x xs ih =>
    simp only [SummarizedStats.from_covdata, List.foldl_cons]
    rw [ih, ih (SummarizedStats.new_empty.iadd (SummarizedStats.from_file x.2)),
      summary_iadd_empty_left, summary_iadd_assoc]

/-- Cons step of `from_covdata`. -/
lemma from_covdata_cons (x : String × FileCoverage) (l : CovData) :
    SummarizedStats.from_covdata (x :: l)
      = (SummarizedStats.from_file x.2).iadd (SummarizedStats.from_covdata l) := by
  simp only [SummarizedStats.from_covdata, List.foldl_cons]
  rw [from_covdata_foldl_init, summary_iadd_empty_left]
  rfl

/-- C2: the additive merges of `CoverageStat`, `DecisionCoverageStat` and
`SummarizedStats` are componentwise sums, associative and commutative;
`from_covdata` is the fold of the merge over the per-file stats, and its
result is invariant under reordering and regrouping of the files. -/
theorem C2_additive_merge_properties :
    (∀ a b : CoverageStat, a.iadd b = ⟨a.covered + b.covered, a.total + b.total⟩) ∧
    (∀ a b : CoverageStat, a.iadd b = b.iadd a) ∧
    (∀ a b c : CoverageStat, (a.iadd b).iadd c = a.iadd (b.iadd c)) ∧
    (∀ a b : DecisionCoverageStat,
      a.iadd b = ⟨a.covered + b.covered, a.uncheckable + b.uncheckable, a.total + b.total⟩) ∧
    (∀ a b : DecisionCoverageStat, a.iadd b = b.iadd a) ∧
    (∀ a b c : DecisionCoverageStat, (a.iadd b).iadd c = a.iadd (b.iadd c)) ∧
    (∀ a b : SummarizedStats, a.iadd b = b.iadd a) ∧
    (∀ a b c : SummarizedStats, (a.iadd b).iadd c = a.iadd (b.iadd c)) ∧
    (∀ covdata : CovData,
      SummarizedStats.from_covdata covdata =
        (covdata.map (fun p => SummarizedStats.from_file p.2)).foldl
          SummarizedStats.iadd SummarizedStats.new_empty) ∧
    (∀ c₁ c₂ : CovData, c₁.Perm c₂ →
      SummarizedStats.from_covdata c₁ = SummarizedStats.from_covdata c₂) ∧
    (∀ c₁ c₂ : CovData,
      SummarizedStats.from_covdata (c₁ ++ c₂)
        = (SummarizedStats.from_covdata c₁).iadd (SummarizedStats.from_covdata c₂)) := by
  refine ⟨fun a b => rfl, covStat_iadd_comm, covStat_iadd_assoc,
    fun a b => rfl, DecisioncovStat_iadd_comm, DecisioncovStat_iadd_assoc,
    summary_iadd_comm, summary_iadd_assoc, ?_, ?_, ?_⟩
  · intro covdata
    rw [List.foldl_map]
    rfl
  · intro c₁ c₂ h
    induction h with
    | nil => rfl
    | cons x hp ih => rw [from_covdata_cons, from_covdata_cons, ih]
    | swap x y l =>
      rw [from_covdata_cons, from_covdata_cons, from_covdata_cons, from_covdata_cons,
        ← summary_iadd_assoc, summary_iadd_comm
          (SummarizedStats.from_file y.2), summary_iadd_assoc]
    | trans h₁ h₂ ih₁ ih₂ => exact ih₁.trans ih₂
  · intro c₁ c₂
    simp only [SummarizedStats.from_covdata, List.foldl_append]
    rw [show List.foldl (fun stats p => stats.iadd (SummarizedStats.from_file p.2))
        SummarizedStats.new_empty c₁ = SummarizedStats.from_covdata c₁ from rfl,
      from_covdata_foldl_init]
    rfl

/-- C2 witness: swapping two concrete files leaves the summary unchanged;
splitting them into two groups merges to the whole. -/
theorem C2_additive_merge_properties_witness :
    SummarizedStats.from_covdata
        [("a", FileCoverage.mk "a" [] [(1, ⟨1, 2, false, false, [], none⟩)]),
         ("b", FileCoverage.mk "b" [] [(4, ⟨4, 0, false, false, [], none⟩)])]
      = SummarizedStats.from_covdata
        [("b", FileCoverage.mk "b" [] [(4, ⟨4, 0, false, false, [], none⟩)]),
         ("a", FileCoverage.mk "a" [] [(1, ⟨1, 2, false, false, [], none⟩)])] ∧
    SummarizedStats.from_covdata
        [("a", FileCoverage.mk "a" [] [(1, ⟨1, 2, false, false, [], none⟩)]),
         ("b", FileCoverage.mk "b" [] [(4, ⟨4, 0, false, false, [], none⟩)])]
      = (SummarizedStats.from_covdata
          [("a", FileCoverage.mk "a" [] [(1, ⟨1, 2, false, false, [], none⟩)])]).iadd
        (SummarizedStats.from_covdata
          [("b", FileCoverage.mk "b" [] [(4, ⟨4, 0, false, false, [], none⟩)])]) := by
  constructor
  · exact C2_additive_merge_properties.2.2.2.2.2.2.2.2.2.1 _ _
      (List.Perm.swap _ _ [])
  · exact C2_additive_merge_properties.2.2.2.2.2.2.2.2.2.2 [_] [_]

/-- A conditional-increment fold counts the matching elements. -/
lemma foldl_count_ite {β : Type} (p : β → Bool) (l : List β) (a : ℤ) :
    l.foldl (fun c x => if p x then c + 1 else c) a = a + (l.countP p : ℤ) := by
  induction l generalizing a with
  | nil => simp
  | cons x xs ih =>
    simp only [List.foldl_cons, List.countP_cons, ih]
    by_cases h : p x <;> simp [h] <;> push_cast <;> omega

/-- Closed form of the `line_coverage` fold: covered and total are the
counts of covered and covered-or-uncovered lines. -/
lemma line_coverage_foldl (l : List (ℤ × LineCoverage)) (a : CoverageStat) :
    l.foldl (fun stat p =>
        let t := if p.2.is_covered || p.2.is_uncovered then stat.total + 1 else stat.total
        let c := if p.2.is_covered then stat.covered + 1 else stat.covered
        (⟨c, t⟩ : CoverageStat)) a
      = ⟨a.covered + (l.countP (fun p => p.2.is_covered) : ℤ),
         a.total + (l.countP (fun p => p.2.is_covered || p.2.is_uncovered) : ℤ)⟩ := by
  induction l generalizing a with
  | nil => simp
  | cons x xs ih =>
    simp only [List.foldl_cons, ih, List.countP_cons]
    by_cases h1 : x.2.is_covered <;> by_cases h2 : x.2.is_uncovered <;>
      simp [h1, h2, CoverageStat.mk.injEq] <;> push_cast <;> omega

/-- A line is covered iff it is not noncode and has a positive count. -/
lemma is_covered_eq (lc : LineCoverage) :
    lc.is_covered = (!lc.noncode && decide (0 < lc.count)) := by
  unfold LineCoverage.is_covered
  cases lc.noncode <;> simp

/-- A line is uncovered iff it is not noncode and has count zero. -/
lemma is_uncovered_eq (lc : LineCoverage) :
    lc.is_uncovered = (!lc.noncode && decide (lc.count = 0)) := by
  unfold LineCoverage.is_uncovered
  cases lc.noncode <;> simp

/-- C4: `line_coverage()` counts exactly the non-noncode lines with
positive count into `covered` and the non-noncode lines with positive or
zero count into `total`, so noncode lines appear in neither; the concrete
file {1: covered, 2: noncode, 3: uncovered} yields `(covered=1, total=2)`. -/
theorem C4_line_coverage_counts (fc : FileCoverage) :
    fc.line_coverage.covered
      = (fc.lines.countP (fun p => !p.2.noncode && decide (0 < p.2.count)) : ℤ) ∧
    fc.line_coverage.total
      = (fc.lines.countP (fun p =>
          (!p.2.noncode && decide (0 < p.2.count))
            || (!p.2.noncode && decide (p.2.count = 0))) : ℤ) ∧
    (FileCoverage.mk "ex" []
      [(1, ⟨1, 1, false, false, [], none⟩), (2, ⟨2, 0, true, false, [], none⟩),
       (3, ⟨3, 0, false, false, [], none⟩)]).line_coverage = ⟨1, 2⟩ := by
  have hp : (fun p : ℤ × LineCoverage => p.2.is_covered)
      = (fun p => !p.2.noncode && decide (0 < p.2.count)) :=
    funext fun p => is_covered_eq p.2
  have hq : (fun p : ℤ × LineCoverage => p.2.is_covered || p.2.is_uncovered)
      = (fun p => (!p.2.noncode && decide (0 < p.2.count))
          || (!p.2.noncode && decide (p.2.count = 0))) :=
    funext fun p => by rw [is_covered_eq, is_uncovered_eq]
  refine ⟨?_, ?_, by decide⟩
  · unfold FileCoverage.line_coverage
    rw [line_coverage_foldl]
    simp only [zero_add]
    rw [hp]
  · unfold FileCoverage.line_coverage
    rw [line_coverage_foldl]
    simp only [zero_add]
    rw [hq]

/-- C5: the file-level `branch_coverage()` and `decision_coverage()` are
the additive folds of the per-line stats over all lines of the file,
noncode lines included: a file with a single noncode line still counts
that line's branches and decision, although its `line_coverage` is empty. -/
theorem C5_file_level_additive_sums (fc : FileCoverage) :
    fc.branch_coverage
      = (fc.lines.map (fun p => p.2.branch_coverage)).foldl
          CoverageStat.iadd CoverageStat.new_empty ∧
    fc.decision_coverage
      = (fc.lines.map (fun p => p.2.decision_coverage)).foldl
          DecisionCoverageStat.iadd DecisionCoverageStat.new_empty ∧
    (FileCoverage.mk "nc" []
      [(1, ⟨1, 0, true, false, [(0, ⟨2, false, false⟩)], some (.switch 1)⟩)]).branch_coverage
      = ⟨1, 1⟩ ∧
    (FileCoverage.mk "nc" []
      [(1, ⟨1, 0, true, false, [(0, ⟨2, false, false⟩)], some (.switch 1)⟩)]).decision_coverage
      = ⟨1, 0, 1⟩ ∧
    (FileCoverage.mk "nc" []
      [(1, ⟨1, 0, true, false, [(0, ⟨2, false, false⟩)], some (.switch 1)⟩)]).line_coverage
      = ⟨0, 0⟩ := by
  refine ⟨?_, ?_, by decide, by decide, by decide⟩
  · unfold FileCoverage.branch_coverage
    rw [List.foldl_map]
  · unfold FileCoverage.decision_coverage
    rw [List.foldl_map]


/-- Merging preserves well-formedness. -/
lemma statOk_iadd {a b : CoverageStat} (ha : statOk a) (hb : statOk b) :
    statOk (a.iadd b) := by
  unfold statOk CoverageStat.iadd at *
  dsimp only at *
  omega

/-- Counting a stronger predicate gives a smaller count. -/
lemma countP_le_of_imp {β : Type} (p q : β → Bool) (l : List β)
    (h : ∀ x ∈ l, p x = true → q x = true) : l.countP p ≤ l.countP q := by
  induction l with
  | nil => simp
  | cons x xs ih =>
    simp only [List.countP_cons]
    have hx := h x (by simp)
    have hxs := ih (fun y hy => h y (by simp [hy]))
    by_cases hp : p x
    · simp [hp, hx hp]
      omega
    · by_cases hq : q x <;> simp [hp, hq] <;> omega

/-- Closed form of the `function_coverage` covered fold. -/
lemma function_coverage_foldl (l : List (String × FunctionCoverage)) (a : ℤ) :
    l.foldl (fun covered p => if 0 < p.2.count then covered + 1 else covered) a
      = a + (l.countP (fun p => decide (0 < p.2.count)) : ℤ) := by
  induction l generalizing a with
  | nil => simp
  | cons x xs ih =>
    simp only [List.foldl_cons, List.countP_cons, ih]
    by_cases h : 0 < x.2.count <;> simp [h] <;> push_cast <;> omega

/-- Folding the per-line branch stats preserves well-formedness. -/
lemma statOk_branch_foldl (l : List (ℤ × LineCoverage)) (a : CoverageStat)
    (ha : statOk a) (hl : ∀ p ∈ l, statOk p.2.branch_coverage) :
    statOk (l.foldl (fun stat p => stat.iadd p.2.branch_coverage) a) := by
  induction l generalizing a with
  | nil => exact ha
  | cons x xs ih =>
    simp only [List.foldl_cons]
    exact ih _ (statOk_iadd ha (hl x (by simp))) (fun p hp => hl p (by simp [hp]))

/-- C9: every `CoverageStat` produced by the aggregation operations has
non-negative fields with `covered ≤ total`, and the additive merge
preserves this invariant. -/
theorem C9_stat_invariant :
    (∀ lc : LineCoverage, statOk lc.branch_coverage) ∧
    (∀ fc : FileCoverage, statOk fc.line_coverage) ∧
    (∀ fc : FileCoverage, statOk fc.function_coverage) ∧
    (∀ fc : FileCoverage, statOk fc.branch_coverage) ∧
    (∀ a b : CoverageStat, statOk a → statOk b → statOk (a.iadd b)) := by
  have hbranch : ∀ lc : LineCoverage, statOk lc.branch_coverage := by
    intro lc
    unfold LineCoverage.branch_coverage
    rw [foldl_count_ite]
    unfold statOk
    dsimp only
    simp only [zero_add]
    refine ⟨by positivity, by positivity, ?_⟩
    exact_mod_cast List.countP_le_length _
  refine ⟨hbranch, ?_, ?_, ?_, fun a b ha hb => statOk_iadd ha hb⟩
  · intro fc
    unfold FileCoverage.line_coverage
    rw [line_coverage_foldl]
    unfold statOk
    dsimp only
    simp only [zero_add]
    refine ⟨by positivity, by positivity, ?_⟩
    exact_mod_cast countP_le_of_imp (fun p : ℤ × LineCoverage => p.2.is_covered)
      (fun p => p.2.is_covered || p.2.is_uncovered) fc.lines
      (fun x hx h => by simp [h])
  · intro fc
    unfold FileCoverage.function_coverage
    rw [function_coverage_foldl]
    unfold statOk
    dsimp only
    simp only [zero_add]
    refine ⟨by positivity, by positivity, ?_⟩
    exact_mod_cast List.countP_le_length _
  · intro fc
    unfold FileCoverage.branch_coverage
    exact statOk_branch_foldl fc.lines CoverageStat.new_empty
      ⟨by decide, by decide, by decide⟩
      (fun p hp => hbranch p.2)

/-- C9 witness: the merge invariant at concrete stats, and a concrete
aggregated file stat. -/
theorem C9_stat_invariant_witness :
    statOk ((CoverageStat.mk 1 2).iadd (CoverageStat.mk 0 3)) ∧
    statOk ((FileCoverage.mk "w" []
      [(1, ⟨1, 1, false, false, [(0, ⟨1, false, false⟩), (1, ⟨0, false, false⟩)], none⟩)]).branch_coverage) := by
  constructor
  · exact C9_stat_invariant.2.2.2.2 ⟨1, 2⟩ ⟨0, 3⟩ ⟨by decide, by decide, by decide⟩
      ⟨by decide, by decide, by decide⟩
  · exact C9_stat_invariant.2.2.2.1 _



/-- A one-element range expands to its single line. -/
lemma rangeList_self (x : ℤ) : rangeList x x = [x] := by
  unfold rangeList
  have h : x + 1 - x = 1 := by omega
  rw [h, show ((1 : ℤ).toNat) = 1 from rfl, show List.range 1 = [0] from rfl]
  simp

/-- Extending a range by one appends the new line. -/
lemma rangeList_succ (f l : ℤ) (h : f ≤ l + 1) :
    rangeList f (l + 1) = rangeList f l ++ [l + 1] := by
  unfold rangeList
  have h1 : (l + 1 + 1 - f).toNat = (l + 1 - f).toNat + 1 := by omega
  rw [h1, List.range_succ, List.map_append]
  simp only [List.map_cons, List.map_nil]
  congr 2
  omega

/-- Cons step of the range expansion. -/
lemma decompressRanges_cons (p : ℤ × ℤ) (rs : List (ℤ × ℤ)) :
    decompressRanges (p :: rs) = rangeList p.1 p.2 ++ decompressRanges rs := by
  simp [decompressRanges]

/-- The ranges produced by the scan expand back to exactly the input. -/
lemma findRangesGo_decompress (xs : List ℤ) (f l : ℤ) (h : f ≤ l) :
    decompressRanges (findRangesGo f l xs) = rangeList f l ++ xs := by
  induction xs generalizing f l with
  | nil => simp [findRangesGo, decompressRanges]
  | cons x rest ih =>
    unfold findRangesGo
    by_cases hx : x = l + 1
    · rw [if_pos hx, ih f x (by omega)]
      subst hx
      rw [rangeList_succ f l (by omega)]
      simp
    · rw [if_neg hx, decompressRanges_cons]
      dsimp only
      rw [ih x x (le_refl x), rangeList_self]
      simp

/-- Range compression is lossless. -/
lemma findConsecutiveRanges_decompress (l : List ℤ) :
    decompressRanges (findConsecutiveRanges l) = l := by
  cases l with
  | nil => rfl
  | cons x xs =>
    unfold findConsecutiveRanges
    rw [findRangesGo_decompress xs x x (le_refl x), rangeList_self]
    rfl

/-- The first emitted range opens at the scan's current start. -/
lemma findRangesGo_head (xs : List ℤ) (f l : ℤ) :
    ∃ m rs, findRangesGo f l xs = (f, m) :: rs ∧ l ≤ m := by
  induction xs generalizing l with
  | nil => exact ⟨l, [], rfl, le_refl l⟩
  | cons x rest ih =>
    unfold findRangesGo
    by_cases hx : x = l + 1
    · rw [if_pos hx]
      obtain ⟨m, rs, heq, hle⟩ := ih x
      exact ⟨m, rs, heq, by omega⟩
    · rw [if_neg hx]
      exact ⟨l, findRangesGo x x rest, rfl, le_refl l⟩

/-- On a strictly ascending input the scan emits well-formed maximal
ranges: each range has `first ≤ last` and consecutive ranges are
separated by a gap of at least one line. -/
lemma findRangesGo_chain (xs : List ℤ) (f l : ℤ) (hfl : f ≤ l)
    (h : List.Chain' (· < ·) (l :: xs)) :
    List.Chain' (fun p q : ℤ × ℤ => p.2 + 1 < q.1) (findRangesGo f l xs) ∧
    ∀ p ∈ findRangesGo f l xs, p.1 ≤ p.2 := by
  induction xs generalizing f l with
  | nil =>
    refine ⟨List.chain'_singleton _, ?_⟩
    intro p hp
    simp only [findRangesGo, List.mem_singleton] at hp
    subst hp
    exact hfl
  | cons x rest ih =>
    have hlx : l < x := (List.chain'_cons.mp h).1
    have hrest : List.Chain' (· < ·) (x :: rest) := (List.chain'_cons.mp h).2
    unfold findRangesGo
    by_cases hx : x = l + 1
    · rw [if_pos hx]
      exact ih f x (by omega) hrest
    · rw [if_neg hx]
      obtain ⟨m, rs, heq, hle⟩ := findRangesGo_head rest x x
      have hmain := ih x x (le_refl x) hrest
      constructor
      · rw [heq]
        rw [heq] at hmain
        exact List.chain'_cons.mpr ⟨by dsimp only; omega, hmain.1⟩
      · intro p hp
        rcases List.mem_cons.mp hp with hp1 | hp2
        · subst hp1
          exact hfl
        · exact hmain.2 p hp2

/-- Inserting into a sorted list permutes consing. -/
lemma insSortAux_perm (x : ℤ) (l : List ℤ) : (insSortAux x l).Perm (x :: l) := by
  induction l with
  | nil => exact List.Perm.refl _
  | cons y ys ih =>
    unfold insSortAux
    by_cases hxy : x ≤ y
    · rw [if_pos hxy]
    · rw [if_neg hxy]
      exact List.Perm.trans (List.Perm.cons y ih) (List.Perm.swap x y ys)

/-- The insertion sort permutes its input. -/
lemma insSort_perm (l : List ℤ) : (insSort l).Perm l := by
  induction l with
  | nil => exact List.Perm.refl _
  | cons x xs ih =>
    unfold insSort
    exact List.Perm.trans (insSortAux_perm x (insSort xs)) (List.Perm.cons x ih)

/-- Insertion preserves sortedness. -/
lemma insSortAux_pairwise (x : ℤ) (l : List ℤ) (h : l.Pairwise (· ≤ ·)) :
    (insSortAux x l).Pairwise (· ≤ ·) := by
  induction l with
  | nil => simp [insSortAux]
  | cons y ys ih =>
    rcases List.pairwise_cons.mp h with ⟨hy, hys⟩
    unfold insSortAux
    by_cases hxy : x ≤ y
    · rw [if_pos hxy]
      refine List.pairwise_cons.mpr ⟨?_, h⟩
      intro z hz
      rcases List.mem_cons.mp hz with rfl | hz2
      · exact hxy
      · exact le_trans hxy (hy z hz2)
    · rw [if_neg hxy]
      refine List.pairwise_cons.mpr ⟨?_, ih hys⟩
      intro z hz
      have hz3 : z ∈ x :: ys := (insSortAux_perm x ys).mem_iff.mp hz
      rcases List.mem_cons.mp hz3 with rfl | hz4
      · omega
      · exact hy z hz4

/-- The insertion sort sorts. -/
lemma insSort_pairwise (l : List ℤ) : (insSort l).Pairwise (· ≤ ·) := by
  induction l with
  | nil => simp [insSort]
  | cons x xs ih =>
    unfold insSort
    exact insSortAux_pairwise x (insSort xs) ih

/-- On distinct inputs the insertion sort is strictly ascending. -/
lemma insSort_pairwise_lt (l : List ℤ) (h : l.Nodup) :
    (insSort l).Pairwise (· < ·) := by
  have hnd : (insSort l).Nodup := ((insSort_perm l).nodup_iff).mpr h
  exact ((insSort_pairwise l).and hnd).imp fun hab => lt_of_le_of_ne hab.1 hab.2

/-- With distinct line numbers the sorted uncovered lines are distinct. -/
lemma sortedUncoveredLines_nodup (fc : FileCoverage)
    (h : (fc.lines.map Prod.fst).Nodup) : fc.sortedUncoveredLines.Nodup := by
  unfold FileCoverage.sortedUncoveredLines
  refine ((insSort_perm _).nodup_iff).mpr ?_
  have hsub : ((fc.lines.filter (fun p => p.2.is_uncovered)).map Prod.fst).Sublist
      (fc.lines.map Prod.fst) := (List.filter_sublist _).map Prod.fst
  exact h.sublist hsub

/-- C6: `uncovered_lines_str()` sorts the uncovered line numbers and
compresses maximal runs of consecutive integers into comma-separated
descriptors: the emitted ranges expand back to exactly the sorted
uncovered lines, every range satisfies `first ≤ last`, consecutive ranges
are separated by a gap (maximality), and a range prints as `"first-last"`
when it has at least two lines and as the single number otherwise. -/
theorem C6_uncovered_lines_range_compression (fc : FileCoverage)
    (h : (fc.lines.map Prod.fst).Nodup) :
    fc.uncovered_lines_str = String.intercalate ","
      ((findConsecutiveRanges fc.sortedUncoveredLines).map
        (fun p => formatRange p.1 p.2)) ∧
    decompressRanges (findConsecutiveRanges fc.sortedUncoveredLines)
      = fc.sortedUncoveredLines ∧
    List.Chain' (fun p q : ℤ × ℤ => p.2 + 1 < q.1)
      (findConsecutiveRanges fc.sortedUncoveredLines) ∧
    (∀ p ∈ findConsecutiveRanges fc.sortedUncoveredLines, p.1 ≤ p.2) ∧
    (∀ a b : ℤ, a < b → formatRange a b = toString a ++ "-" ++ toString b) ∧
    (∀ x : ℤ, formatRange x x = toString x) := by
  have hsorted : fc.sortedUncoveredLines.Pairwise (· < ·) :=
    insSort_pairwise_lt _ (by
      have hsub : ((fc.lines.filter (fun p => p.2.is_uncovered)).map Prod.fst).Sublist
          (fc.lines.map Prod.fst) := (List.filter_sublist _).map Prod.fst
      exact h.sublist hsub)
  have hmain : List.Chain' (fun p q : ℤ × ℤ => p.2 + 1 < q.1)
      (findConsecutiveRanges fc.sortedUncoveredLines) ∧
      ∀ p ∈ findConsecutiveRanges fc.sortedUncoveredLines, p.1 ≤ p.2 := by
    cases hl : fc.sortedUncoveredLines with
    | nil => exact ⟨List.chain'_nil, by intro p hp; simp [findConsecutiveRanges] at hp⟩
    | cons x xs =>
      have hchain : List.Chain' (· < ·) (x :: xs) := by
        rw [← hl]
        exact hsorted.chain'
      unfold findConsecutiveRanges
      exact findRangesGo_chain xs x x (le_refl x) hchain
  refine ⟨?_, findConsecutiveRanges_decompress _, hmain.1, hmain.2, ?_, ?_⟩
  · unfold FileCoverage.uncovered_lines_str
    by_cases he : fc.sortedUncoveredLines.isEmpty
    · have hnil : fc.sortedUncoveredLines = [] := by
        cases hl : fc.sortedUncoveredLines with
        | nil => rfl
        | cons x xs => rw [hl] at he; simp [List.isEmpty] at he
      rw [hnil]
      simp only [findConsecutiveRanges, List.isEmpty_nil, if_true, List.map_nil]
      rfl
    · simp only [he, Bool.false_eq_true, if_false]
  · intro a b hab
    unfold formatRange
    rw [if_neg (by omega)]
  · intro x
    unfold formatRange
    rw [if_pos rfl]

/-- C6 witness: uncovered lines {1,2,3,5,7,8,9} print as `"1-3,5,7-9"`,
an empty set prints as `""`, and the singleton {5} prints as `"5"`. -/
theorem C6_uncovered_lines_range_compression_witness :
    (FileCoverage.mk "a" []
      [(1, ⟨1, 0, false, false, [], none⟩), (2, ⟨2, 0, false, false, [], none⟩),
       (3, ⟨3, 0, false, false, [], none⟩), (4, ⟨4, 6, false, false, [], none⟩),
       (5, ⟨5, 0, false, false, [], none⟩), (6, ⟨6, 0, true, false, [], none⟩),
       (7, ⟨7, 0, false, false, [], none⟩), (8, ⟨8, 0, false, false, [], none⟩),
       (9, ⟨9, 0, false, false, [], none⟩)]).uncovered_lines_str = "1-3,5,7-9" ∧
    (FileCoverage.mk "b" [] []).uncovered_lines_str = "" ∧
    (FileCoverage.mk "c" []
      [(5, ⟨5, 0, false, false, [], none⟩)]).uncovered_lines_str = "5" := by
  refine ⟨?_, ?_, ?_⟩
  · exact ((C6_uncovered_lines_range_compression (FileCoverage.mk "a" []
      [(1, ⟨1, 0, false, false, [], none⟩), (2, ⟨2, 0, false, false, [], none⟩),
       (3, ⟨3, 0, false, false, [], none⟩), (4, ⟨4, 6, false, false, [], none⟩),
       (5, ⟨5, 0, false, false, [], none⟩), (6, ⟨6, 0, true, false, [], none⟩),
       (7, ⟨7, 0, false, false, [], none⟩), (8, ⟨8, 0, false, false, [], none⟩),
       (9, ⟨9, 0, false, false, [], none⟩)]) (by decide)).1).trans (by decide)
  · exact ((C6_uncovered_lines_range_compression (FileCoverage.mk "b" [] [])
      (by decide)).1).trans (by decide)
  · exact ((C6_uncovered_lines_range_compression (FileCoverage.mk "c" []
      [(5, ⟨5, 0, false, false, [], none⟩)]) (by decide)).1).trans (by decide)



/-- `line_coverage` never reads the excluded flag. -/
lemma line_coverage_clearExcluded (fc : FileCoverage) :
    fc.clearExcluded.line_coverage = fc.line_coverage := by
  unfold FileCoverage.line_coverage FileCoverage.clearExcluded
  dsimp only
  rw [List.foldl_map]
  rfl

/-- `branch_coverage` never reads the excluded flag. -/
lemma branch_coverage_clearExcluded (fc : FileCoverage) :
    fc.clearExcluded.branch_coverage = fc.branch_coverage := by
  unfold FileCoverage.branch_coverage FileCoverage.clearExcluded
  dsimp only
  rw [List.foldl_map]
  rfl

/-- `decision_coverage` never reads the excluded flag. -/
lemma decision_coverage_clearExcluded (fc : FileCoverage) :
    fc.clearExcluded.decision_coverage = fc.decision_coverage := by
  unfold FileCoverage.decision_coverage FileCoverage.clearExcluded
  dsimp only
  rw [List.foldl_map]
  rfl

/-- `function_coverage` never touches the lines at all. -/
lemma function_coverage_clearExcluded (fc : FileCoverage) :
    fc.clearExcluded.function_coverage = fc.function_coverage := rfl

/-- The sorted uncovered lines ignore the excluded flag. -/
lemma sortedUncoveredLines_clearExcluded (fc : FileCoverage) :
    fc.clearExcluded.sortedUncoveredLines = fc.sortedUncoveredLines := by
  unfold FileCoverage.sortedUncoveredLines FileCoverage.clearExcluded
  dsimp only
  rw [List.filter_map, List.map_map]
  rfl

/-- `uncovered_lines_str` ignores the excluded flag. -/
lemma uncovered_lines_str_clearExcluded (fc : FileCoverage) :
    fc.clearExcluded.uncovered_lines_str = fc.uncovered_lines_str := by
  unfold FileCoverage.uncovered_lines_str
  rw [sortedUncoveredLines_clearExcluded]

/-- `uncovered_branches_str` ignores the excluded flag. -/
lemma uncovered_branches_str_clearExcluded (fc : FileCoverage) :
    fc.clearExcluded.uncovered_branches_str = fc.uncovered_branches_str := by
  unfold FileCoverage.uncovered_branches_str FileCoverage.clearExcluded
  dsimp only
  rw [List.filter_map, List.map_map]
  rfl

/-- C10: the excluded flag has no effect on any aggregate or report
string of this module: two files whose lines differ only in excluded
flags produce identical `line_coverage`, `branch_coverage`,
`decision_coverage`, `function_coverage`, `uncovered_lines_str` and
`uncovered_branches_str`; and an excluded non-noncode line with count 0
still counts as uncovered. -/
theorem C10_excluded_flag_no_effect (fc₁ fc₂ : FileCoverage)
    (h : fc₁.clearExcluded = fc₂.clearExcluded) :
    fc₁.line_coverage = fc₂.line_coverage ∧
    fc₁.branch_coverage = fc₂.branch_coverage ∧
    fc₁.decision_coverage = fc₂.decision_coverage ∧
    fc₁.function_coverage = fc₂.function_coverage ∧
    fc₁.uncovered_lines_str = fc₂.uncovered_lines_str ∧
    fc₁.uncovered_branches_str = fc₂.uncovered_branches_str ∧
    (∀ (ln : ℤ) (br : List (ℤ × BranchCoverage)) (dc : Option DecisionCoverage),
      (LineCoverage.mk ln 0 false true br dc).is_uncovered = true) := by
  refine ⟨?_, ?_, ?_, ?_, ?_, ?_, fun ln br dc => rfl⟩
  · rw [← line_coverage_clearExcluded fc₁, h, line_coverage_clearExcluded]
  · rw [← branch_coverage_clearExcluded fc₁, h, branch_coverage_clearExcluded]
  · rw [← decision_coverage_clearExcluded fc₁, h, decision_coverage_clearExcluded]
  · rw [← function_coverage_clearExcluded fc₁, h, function_coverage_clearExcluded]
  · rw [← uncovered_lines_str_clearExcluded fc₁, h, uncovered_lines_str_clearExcluded]
  · rw [← uncovered_branches_str_clearExcluded fc₁, h,
      uncovered_branches_str_clearExcluded]

/-- C10 witness: a concrete pair of files differing only in an excluded
flag on an uncovered line; all six results agree, and the excluded line
still shows up in the uncovered-lines string. -/
theorem C10_excluded_flag_no_effect_witness :
    (FileCoverage.mk "x" []
      [(1, ⟨1, 0, false, true, [], none⟩)]).line_coverage
      = (FileCoverage.mk "x" []
        [(1, ⟨1, 0, false, false, [], none⟩)]).line_coverage ∧
    (FileCoverage.mk "x" []
      [(1, ⟨1, 0, false, true, [], none⟩)]).uncovered_lines_str
      = (FileCoverage.mk "x" []
        [(1, ⟨1, 0, false, false, [], none⟩)]).uncovered_lines_str ∧
    (FileCoverage.mk "x" []
      [(1, ⟨1, 0, false, true, [], none⟩)]).uncovered_lines_str = "1" := by
  have h := C10_excluded_flag_no_effect
    (FileCoverage.mk "x" [] [(1, ⟨1, 0, false, true, [], none⟩)])
    (FileCoverage.mk "x" [] [(1, ⟨1, 0, false, false, [], none⟩)]) (by decide)
  exact ⟨h.1, h.2.2.2.2.1, by decide⟩

end Gcovr
